import Mathlib

/-!
Shallow embedding of packages/dev-server/src/HermesBundler.ts and proofs about it.

Conventions of the embedding:
* JS strings are Lean String / List Char; Node Buffer contents are List (Fin 256).
* Async functions are pure Lean functions; fallible operations return Except.
* Effects (filesystem, subprocess) are modelled by explicit state passing and by
  an environment record carrying the outcome of each external operation.
-/

namespace HermesBundler

/-- A single byte of a Node Buffer. -/
abbrev Byte := Fin 256

/-! ### Bytecode header inspector (HermesBundler.ts lines 171-193) -/

/-- Source line 172: the constant HERMES_MAGIC_HEADER, the lowercase hex rendering of
the 8 magic bytes. -/
def HERMES_MAGIC_HEADER : String := "c61fbc03c103191f"

/-- Hex rendering of one byte, as produced by Buffer.toString with encoding hex:
two lowercase hex digits.  Nat.digitChar yields exactly the characters 0-9, a-f
for values below 16. -/
def byteToHex (b : Byte) : List Char :=
  [Nat.digitChar (b.val / 16), Nat.digitChar (b.val % 16)]

/-- Buffer.toString with encoding hex over a byte list (source line 176 and 181
call it on a 8-byte slice). -/
def bytesToHex (l : List Byte) : String :=
  ((l.map byteToHex).flatten).asString

/-- Source lines 187-193, readHermesHeaderAsync: Buffer.alloc(12) is zero-filled and
fs.read copies min(12, file length) bytes from the start of the file without
failing at end of file, so the result is the first 12 bytes of the file padded
with zero bytes up to length 12.  The file argument is the content of a readable
file. -/
def readHermesHeader (file : List Byte) : List Byte :=
  file.take 12 ++ List.replicate (12 - (file.take 12).length) (0 : Byte)

/-- Source lines 174-177, isHermesBytecodeBundleAsync: compare the hex rendering of
the first 8 header bytes with HERMES_MAGIC_HEADER. -/
def isHermesBytecodeBundle (file : List Byte) : Bool :=
  let header := readHermesHeader file
  bytesToHex (header.take 8) == HERMES_MAGIC_HEADER

/-- Buffer.readUInt32LE at a byte offset: little-endian unsigned 32-bit decode. -/
def readUInt32LE (l : List Byte) (off : Nat) : Nat :=
  (l.getD off 0).val +
    256 * (l.getD (off + 1) 0).val +
    65536 * (l.getD (off + 2) 0).val +
    16777216 * (l.getD (off + 3) 0).val

/-- Source lines 179-185, getHermesBytecodeBundleVersionAsync: throw on a magic
mismatch, otherwise decode bytes 8-11 as an unsigned little-endian 32-bit
integer. -/
def getHermesBytecodeBundleVersion (file : List Byte) : Except String Nat :=
  let header := readHermesHeader file
  if bytesToHex (header.take 8) != HERMES_MAGIC_HEADER then
    Except.error "Invalid hermes bundle file"
  else
    Except.ok (readUInt32LE header 8)

/-- The 8 magic bytes that HERMES_MAGIC_HEADER is the hex rendering of
(spec section 3, BytecodeHeader). -/
def hermesMagicBytes : List Byte :=
  [0xc6, 0x1f, 0xbc, 0x03, 0xc1, 0x03, 0x19, 0x1f]

theorem readHermesHeader_length (file : List Byte) : (readHermesHeader file).length = 12 := by
  simp only [readHermesHeader, List.length_append, List.length_take, List.length_replicate]
  omega

theorem digitChar_inj_lt16 (a b : Nat) (ha : a < 16) (hb : b < 16)
    (h : Nat.digitChar a = Nat.digitChar b) : a = b := by
  have : ∀ x y : Fin 16, Nat.digitChar x.val = Nat.digitChar y.val → x = y := by decide
  have := this ⟨a, ha⟩ ⟨b, hb⟩ h
  exact congrArg Fin.val this

theorem byteToHex_inj (a b : Byte) (h : byteToHex a = byteToHex b) : a = b := by
  simp only [byteToHex, List.cons.injEq, and_true] at h
  obtain ⟨h1, h2⟩ := h
  have ha16 : a.val / 16 < 16 := by omega
  have hb16 : b.val / 16 < 16 := by omega
  have ha16' : a.val % 16 < 16 := by omega
  have hb16' : b.val % 16 < 16 := by omega
  have e1 := digitChar_inj_lt16 _ _ ha16 hb16 h1
  have e2 := digitChar_inj_lt16 _ _ ha16' hb16' h2
  have : a.val = b.val := by omega
  exact Fin.ext this

theorem bytesToHex_inj : ∀ (a b : List Byte), a.length = b.length →
    bytesToHex a = bytesToHex b → a = b := by
  intro a
  induction a with
  | nil =>
    intro b hlen _
    cases b with
    | nil => rfl
    | cons y ys => simp at hlen
  | cons x xs ih =>
    intro b hlen hhex
    cases b with
    | nil => simp at hlen
    | cons y ys =>
      have hdata : (((x :: xs).map byteToHex).flatten) = (((y :: ys).map byteToHex).flatten) :=
        congrArg String.data hhex
      simp only [List.map_cons, List.flatten_cons, byteToHex, List.cons_append,
        List.nil_append, List.cons.injEq] at hdata
      obtain ⟨h1, h2, h3⟩ := hdata
      have hx : x = y := byteToHex_inj x y (by simp [byteToHex, h1, h2])
      have hxs : xs = ys := by
        apply ih ys (by simpa using hlen)
        simpa [bytesToHex] using congrArg List.asString h3
      rw [hx, hxs]

theorem bytesToHex_eq_magic_iff (l : List Byte) (hlen : l.length = 8) :
    bytesToHex l = HERMES_MAGIC_HEADER ↔ l = hermesMagicBytes := by
  constructor
  · intro h
    apply bytesToHex_inj l hermesMagicBytes (by simp [hlen, hermesMagicBytes])
    rw [h]
    decide
  · intro h
    rw [h]
    decide

theorem readHermesHeader_take8_of_long (file : List Byte) (h : 8 ≤ file.length) :
    (readHermesHeader file).take 8 = file.take 8 := by
  have h12 : (file.take 12).length = min 12 file.length := List.length_take 12 file
  rw [readHermesHeader, List.take_append_of_le_length (by omega)]
  rw [List.take_take]
  norm_num

theorem readHermesHeader_take8_of_short (file : List Byte) (h : file.length < 8) :
    (readHermesHeader file).take 8 = file ++ List.replicate (8 - file.length) (0 : Byte) := by
  have ht : file.take 12 = file := List.take_of_length_le (by omega)
  rw [readHermesHeader, ht]
  rw [List.take_append_eq_append_take]
  rw [List.take_of_length_le (by omega), List.take_replicate]
  congr 1
  congr 1
  omega

theorem magic_check_iff (file : List Byte) :
    (readHermesHeader file).take 8 = hermesMagicBytes ↔ file.take 8 = hermesMagicBytes := by
  by_cases h : 8 ≤ file.length
  · rw [readHermesHeader_take8_of_long file h]
  · push_neg at h
    rw [readHermesHeader_take8_of_short file h]
    constructor
    · intro heq
      exfalso
      have h7 : (file ++ List.replicate (8 - file.length) (0 : Byte))[7]? =
          hermesMagicBytes[7]? := by rw [heq]
      rw [List.getElem?_append_right (by omega)] at h7
      rw [List.getElem?_replicate] at h7
      have hlt : 7 - file.length < 8 - file.length := by omega
      rw [if_pos hlt] at h7
      exact absurd h7 (by decide)
    · intro heq
      exfalso
      have : file.length = (file.take 8).length := by
        rw [List.length_take]; omega
      rw [heq] at this
      simp [hermesMagicBytes] at this
      omega

/-- Claim C5: isHermesBytecodeBundleAsync returns true exactly when the first 8
bytes of the file are the magic constant c6 1f bc 03 c1 03 19 1f, and any file
shorter than 8 bytes yields false rather than an error. -/
theorem hermes_magic_detection :
    (∀ file : List Byte, isHermesBytecodeBundle file = true ↔ file.take 8 = hermesMagicBytes) ∧
    (∀ file : List Byte, file.length < 8 → isHermesBytecodeBundle file = false) := by
  have main : ∀ file : List Byte,
      isHermesBytecodeBundle file = true ↔ file.take 8 = hermesMagicBytes := by
    intro file
    have hlen : ((readHermesHeader file).take 8).length = 8 := by
      rw [List.length_take, readHermesHeader_length]
      omega
    rw [isHermesBytecodeBundle]
    simp only [beq_iff_eq]
    rw [bytesToHex_eq_magic_iff _ hlen]
    exact magic_check_iff file
  refine ⟨main, ?_⟩
  intro file hshort
  by_contra h
  have : isHermesBytecodeBundle file = true := by
    cases hb : isHermesBytecodeBundle file
    · exact absurd hb h
    · rfl
  have htake := (main file).mp this
  have : (file.take 8).length = 8 := by rw [htake]; decide
  rw [List.length_take] at this
  omega

/-- Closed witness for C5: the empty file (shorter than 8 bytes) is not detected
as a bytecode bundle, and a file starting with the magic bytes is. -/
theorem hermes_magic_detection_witness :
    isHermesBytecodeBundle ([] : List Byte) = false ∧
    isHermesBytecodeBundle (hermesMagicBytes ++ [0x05, 0, 0, 0]) = true := by
  constructor
  · exact hermes_magic_detection.2 [] (by decide)
  · exact (hermes_magic_detection.1 (hermesMagicBytes ++ [0x05, 0, 0, 0])).mpr (by decide)

/-- Claim C6: getHermesBytecodeBundleVersionAsync decodes the version of a valid
header as an unsigned little-endian 32-bit integer (5 on the example header),
and fails with the invalid-bundle error whenever the first byte does not match
the magic constant. -/
theorem hermes_version_extraction :
    getHermesBytecodeBundleVersion
        [0xc6, 0x1f, 0xbc, 0x03, 0xc1, 0x03, 0x19, 0x1f, 0x05, 0x00, 0x00, 0x00] =
      Except.ok 5 ∧
    ∀ (b : Byte) (rest : List Byte), b ≠ 0xc6 →
      getHermesBytecodeBundleVersion (b :: rest) = Except.error "Invalid hermes bundle file" := by
  constructor
  · rfl
  · intro b rest hb
    have hlen : ((readHermesHeader (b :: rest)).take 8).length = 8 := by
      rw [List.length_take, readHermesHeader_length]
      omega
    have hne : bytesToHex ((readHermesHeader (b :: rest)).take 8) ≠ HERMES_MAGIC_HEADER := by
      intro h
      have h1 := (bytesToHex_eq_magic_iff _ hlen).mp h
      have h2 := (magic_check_iff (b :: rest)).mp h1
      have h3 : (b :: rest).take 8 = b :: rest.take 7 := rfl
      rw [h3, hermesMagicBytes] at h2
      exact hb (List.head_eq_of_cons_eq h2)
    rw [getHermesBytecodeBundleVersion]
    simp only [bne_iff_ne, ne_eq, hne, not_false_eq_true, if_pos]

/-- Closed witness for C6: the version of the example header is 5, and flipping
the first byte to 0 produces the invalid-bundle error. -/
theorem hermes_version_extraction_witness :
    getHermesBytecodeBundleVersion
        [0x00, 0x1f, 0xbc, 0x03, 0xc1, 0x03, 0x19, 0x1f, 0x05, 0x00, 0x00, 0x00] =
      Except.error "Invalid hermes bundle file" :=
  hermes_version_extraction.2 0x00
    [0x1f, 0xbc, 0x03, 0xc1, 0x03, 0x19, 0x1f, 0x05, 0x00, 0x00, 0x00] (by decide)

/-- Counterexample for claim C7: the header-reading primitive does not fail on a
file shorter than 12 bytes.  On the empty file it returns a header of 12 zero
bytes, because Buffer.alloc(12) zero-fills and fs.read does not fail at end of
file. -/
theorem readHermesHeader_short_no_failure :
    readHermesHeader ([] : List Byte) = List.replicate 12 (0 : Byte) ∧
    (readHermesHeader ([] : List Byte)).length = 12 := by
  constructor
  · decide
  · decide

/-- Amended claim C7: for a readable file shorter than 12 bytes the primitive
does not fail; it returns the file bytes zero-padded to exactly 12 bytes. -/
theorem readHermesHeader_short_zero_pads (file : List Byte) (h : file.length < 12) :
    readHermesHeader file = file ++ List.replicate (12 - file.length) (0 : Byte) := by
  rw [readHermesHeader, List.take_of_length_le (by omega)]

/-- Closed witness for amended C7: a 3-byte file yields its 3 bytes followed by 9
zero bytes. -/
theorem readHermesHeader_short_zero_pads_witness :
    readHermesHeader [0xc6, 0x1f, 0xbc] =
      [0xc6, 0x1f, 0xbc] ++ List.replicate 9 (0 : Byte) :=
  readHermesHeader_short_zero_pads [0xc6, 0x1f, 0xbc] (by decide)

/-! ### parseGradleProperties (HermesBundler.ts lines 96-110) -/

/-- Whitespace as stripped by the JS String trim method (the ASCII whitespace
characters and the no-break space; further Unicode space characters never occur
in the inputs considered here). -/
def isJsWhitespace (c : Char) : Bool :=
  c = ' ' || c = '\t' || c = '\n' || c = '\r' || c = '\x0b' || c = '\x0c' || c = ' '

/-- JS String trim: remove leading and trailing whitespace. -/
def jsTrim (l : List Char) : List Char :=
  ((l.dropWhile isJsWhitespace).reverse.dropWhile isJsWhitespace).reverse

/-- JS String indexOf for a single character: index of the first occurrence, or
-1 when absent. -/
def jsIndexOf (l : List Char) (c : Char) : Int :=
  ((l.findIdx? (· = c)).map Int.ofNat).getD (-1)

/-- JS String substr with an explicit length, at a non-negative start position
(the only form used at source line 105, start 0): a non-positive length yields
the empty string. -/
def jsSubstr (l : List Char) (start length : Int) : List Char :=
  (l.drop start.toNat).take length.toNat

/-- JS String substr from a non-negative start position to the end of the string
(the form used at source line 106, start sepIndex + 1 which is at least 0). -/
def jsSubstrFrom (l : List Char) (start : Int) : List Char :=
  l.drop start.toNat

/-- A JS plain object with string keys, as an insertion-ordered association
list. -/
abbrev GradleProps := List (List Char × List Char)

/-- JS object property assignment result[key] = value: overwrite in place when
the key is present, append otherwise. -/
def recordSet (result : GradleProps) (key value : List Char) : GradleProps :=
  match result with
  | [] => [(key, value)]
  | (k, v) :: rest =>
    if k = key then (key, value) :: rest else (k, v) :: recordSet rest key value

/-- The body of the loop of parseGradleProperties (source lines 98-108) for one
raw line. -/
def parseGradlePropertiesLine (result : GradleProps) (rawLine : List Char) : GradleProps :=
  let line := jsTrim rawLine
  if line.isEmpty || line.head? == some '#' then
    result
  else
    let sepIndex := jsIndexOf line '='
    let key := jsSubstr line 0 sepIndex
    let value := jsSubstrFrom line (sepIndex + 1)
    recordSet result key value

/-- Source lines 96-110, parseGradleProperties: split the content on newlines and
process each line. -/
def parseGradleProperties (content : List Char) : GradleProps :=
  (content.splitOn '\n').foldl parseGradlePropertiesLine []

theorem splitOn_eq_single_of_not_mem {l : List Char} (h : '\n' ∉ l) :
    l.splitOn '\n' = [l] := by
  rw [List.splitOn]
  apply List.splitOnP_eq_single
  intro x hx hbeq
  rw [beq_iff_eq] at hbeq
  exact h (hbeq ▸ hx)

theorem jsIndexOf_append_eq (key value : List Char) (hk : '=' ∉ key) :
    jsIndexOf (key ++ '=' :: value) '=' = (key.length : Int) := by
  rw [jsIndexOf, List.findIdx?_append]
  have h1 : key.findIdx? (fun x => decide (x = '=')) = none := by
    rw [List.findIdx?_eq_none_iff]
    intro x hx
    simp only [decide_eq_false_iff_not]
    exact fun he => hk (he ▸ hx)
  have h2 : ('=' :: value).findIdx? (fun x => decide (x = '=')) = some 0 := by
    rw [List.findIdx?_cons]
    simp
  rw [h1, h2]
  simp

/-- Claim C8: parseGradleProperties ignores blank and comment lines and splits each
remaining (trimmed) line at its first equals sign into a key and an untrimmed
value.  The first conjunct is the concrete example of the spec; the second is
the general single-line splitting behavior. -/
theorem gradle_properties_parsing :
    parseGradleProperties "a=1\n# comment\n\nb=two=three\n".data =
      [("a".data, "1".data), ("b".data, "two=three".data)] ∧
    ∀ key value : List Char, '=' ∉ key → '\n' ∉ key → '\n' ∉ value →
      jsTrim (key ++ '=' :: value) = key ++ '=' :: value →
      key.head? ≠ some '#' →
      parseGradleProperties (key ++ '=' :: value) = [(key, value)] := by
  constructor
  · decide
  · intro key value hk hnk hnv htrim hhash
    have hmem : '\n' ∉ key ++ '=' :: value := by
      intro hx
      rcases List.mem_append.mp hx with h | h
      · exact hnk h
      · rcases List.mem_cons.mp h with h | h
        · exact absurd h (by decide)
        · exact hnv h
    have hsingle := splitOn_eq_single_of_not_mem hmem
    rw [parseGradleProperties, hsingle, List.foldl_cons, List.foldl_nil]
    rw [parseGradlePropertiesLine]
    rw [htrim]
    have hcond : ((key ++ '=' :: value).isEmpty ||
        (key ++ '=' :: value).head? == some '#') = false := by
      rw [Bool.or_eq_false_iff]
      constructor
      · cases key <;> rfl
      · cases key with
        | nil => rfl
        | cons c ks =>
          have hc : c ≠ '#' := by
            intro he
            exact hhash (by simp [he])
          simp [hc]
    rw [hcond]
    simp only [Bool.false_eq_true, if_false]
    rw [jsIndexOf_append_eq key value hk]
    have hkey : jsSubstr (key ++ '=' :: value) 0 (key.length : Int) = key := by
      rw [jsSubstr]
      simp only [Int.toNat_zero, List.drop_zero, Int.toNat_ofNat]
      rw [List.take_append_of_le_length (Nat.le_refl _), List.take_length]
    have hval : jsSubstrFrom (key ++ '=' :: value) ((key.length : Int) + 1) = value := by
      rw [jsSubstrFrom, Int.toNat_ofNat_add_one]
      have he : key ++ '=' :: value = (key ++ ['=']) ++ value := by simp
      rw [he]
      exact List.drop_left' (by simp)
    rw [hkey, hval]
    rfl

/-- Closed witness for C8: a single line splits at its first equals sign. -/
theorem gradle_properties_parsing_witness :
    parseGradleProperties ("x".data ++ '=' :: "y".data) = [("x".data, "y".data)] :=
  gradle_properties_parsing.2 "x".data "y".data (by decide) (by decide) (by decide)
    (by decide) (by decide)

theorem parseLine_cond_false (line : List Char) (hne : line ≠ [])
    (hhash : line.head? ≠ some '#') :
    (line.isEmpty || line.head? == some '#') = false := by
  rw [Bool.or_eq_false_iff]
  constructor
  · cases line with
    | nil => exact absurd rfl hne
    | cons c ks => rfl
  · cases line with
    | nil => rfl
    | cons c ks =>
      have hc : c ≠ '#' := fun he => hhash (by simp [he])
      simp [hc]

theorem parseLine_no_sep (result : GradleProps) (line : List Char)
    (htrim : jsTrim line = line) (hne : line ≠ []) (hhash : line.head? ≠ some '#')
    (hk : '=' ∉ line) :
    parseGradlePropertiesLine result line = recordSet result [] line := by
  rw [parseGradlePropertiesLine, htrim]
  rw [parseLine_cond_false line hne hhash]
  simp only [Bool.false_eq_true, if_false]
  have hidx : jsIndexOf line '=' = -1 := by
    have hnone : line.findIdx? (fun x => decide (x = '=')) = none := by
      rw [List.findIdx?_eq_none_iff]
      intro x hx
      simp only [decide_eq_false_iff_not]
      exact fun he => hk (he ▸ hx)
    rw [jsIndexOf, hnone]
    rfl
  rw [hidx]
  rfl

theorem mem_recordSet : ∀ (result : GradleProps) (k0 v0 k v : List Char),
    (k, v) ∈ recordSet result k0 v0 → (k = k0 ∧ v = v0) ∨ (k, v) ∈ result := by
  intro result
  induction result with
  | nil =>
    intro k0 v0 k v h
    rw [recordSet] at h
    rcases List.mem_singleton.mp h with h
    exact Or.inl ⟨congrArg Prod.fst h, congrArg Prod.snd h⟩
  | cons p rest ih =>
    intro k0 v0 k v h
    rw [recordSet] at h
    by_cases he : p.1 = k0
    · rw [if_pos he] at h
      rcases List.mem_cons.mp h with h | h
      · exact Or.inl ⟨congrArg Prod.fst h, congrArg Prod.snd h⟩
      · exact Or.inr (List.mem_cons_of_mem _ h)
    · rw [if_neg he] at h
      rcases List.mem_cons.mp h with h | h
      · exact Or.inr (h ▸ List.mem_cons_self _ _)
      · rcases ih k0 v0 k v h with h' | h'
        · exact Or.inl h'
        · exact Or.inr (List.mem_cons_of_mem _ h')

theorem foldl_parseLine_key_origin :
    ∀ (lines : List (List Char)) (acc : GradleProps) (k v : List Char),
      (k, v) ∈ lines.foldl parseGradlePropertiesLine acc →
      (∃ v', (k, v') ∈ acc) ∨
      ∃ raw ∈ lines, jsTrim raw ≠ [] ∧ (jsTrim raw).head? ≠ some '#' ∧
        k = jsSubstr (jsTrim raw) 0 (jsIndexOf (jsTrim raw) '=') := by
  intro lines
  induction lines with
  | nil =>
    intro acc k v h
    exact Or.inl ⟨v, h⟩
  | cons raw rest ih =>
    intro acc k v h
    rw [List.foldl_cons] at h
    rcases ih _ k v h with ⟨v', hv'⟩ | ⟨raw', hr', hprops⟩
    · by_cases hg : ((jsTrim raw).isEmpty || (jsTrim raw).head? == some '#') = true
      · rw [parseGradlePropertiesLine, if_pos hg] at hv'
        exact Or.inl ⟨v', hv'⟩
      · rw [parseGradlePropertiesLine, if_neg hg] at hv'
        rcases mem_recordSet _ _ _ k v' hv' with ⟨hk, -⟩ | hmem
        · rw [Bool.or_eq_true, not_or] at hg
          obtain ⟨h1, h2⟩ := hg
          refine Or.inr ⟨raw, List.mem_cons_self _ _, ?_, ?_, hk⟩
          · intro hl
            exact h1 (by rw [hl]; rfl)
          · intro hh
            exact h2 (by rw [hh]; rfl)
        · exact Or.inl ⟨v', hmem⟩
    · exact Or.inr ⟨raw', List.mem_cons_of_mem _ hr', hprops⟩

theorem empty_key_cases (line : List Char) (hne : line ≠ [])
    (h : jsSubstr line 0 (jsIndexOf line '=') = []) :
    '=' ∉ line ∨ line.head? = some '=' := by
  rw [jsSubstr, Int.toNat_zero, List.drop_zero] at h
  cases hf : line.findIdx? (fun x => decide (x = '=')) with
  | none =>
    left
    intro hmem
    rw [List.findIdx?_eq_none_iff] at hf
    have := hf '=' hmem
    simp at this
  | some i =>
    right
    have hidx : jsIndexOf line '=' = (i : Int) := by
      rw [jsIndexOf, hf]
      rfl
    rw [hidx, Int.toNat_ofNat] at h
    have hi : i = 0 := by
      rcases List.take_eq_nil_iff.mp h with h' | h'
      · exact h'
      · exact absurd h' hne
    rw [hi, List.findIdx?_eq_some_iff_getElem] at hf
    obtain ⟨hlt, hp, -⟩ := hf
    cases line with
    | nil => exact absurd rfl hne
    | cons c ks =>
      simp only [List.getElem_cons_zero, decide_eq_true_eq] at hp
      rw [hp]
      rfl

/-- Counterexample for claim C10: the empty-string key can also arise from a line
that does contain an equals sign, namely a line starting with one.  On the input
consisting of the single line =x every line contains an equals sign, yet the
result maps the empty key to x. -/
theorem gradle_empty_key_not_only_from_no_sep :
    parseGradleProperties "=x".data = [(([] : List Char), "x".data)] ∧
    ∀ line ∈ ("=x".data).splitOn '\n', '=' ∈ line := by
  constructor
  · decide
  · decide

/-- Amended claim C10: a trimmed, non-blank, non-comment line with no equals sign
is not skipped: the whole line is stored as the value of the empty-string key, a
later such line overwrites an earlier one, and the empty-string key can arise
only from a processed line that either has no equals sign or begins with one. -/
theorem gradle_no_sep_line_behavior :
    (∀ line : List Char, jsTrim line = line → line ≠ [] → line.head? ≠ some '#' →
      '=' ∉ line → '\n' ∉ line →
      parseGradleProperties line = [([], line)]) ∧
    (∀ l1 l2 : List Char,
      jsTrim l1 = l1 → l1 ≠ [] → l1.head? ≠ some '#' → '=' ∉ l1 → '\n' ∉ l1 →
      jsTrim l2 = l2 → l2 ≠ [] → l2.head? ≠ some '#' → '=' ∉ l2 → '\n' ∉ l2 →
      parseGradleProperties (l1 ++ '\n' :: l2) = [([], l2)]) ∧
    (∀ content : List Char, (∃ v, (([] : List Char), v) ∈ parseGradleProperties content) →
      ∃ raw ∈ content.splitOn '\n', jsTrim raw ≠ [] ∧ (jsTrim raw).head? ≠ some '#' ∧
        ('=' ∉ jsTrim raw ∨ (jsTrim raw).head? = some '=')) := by
  refine ⟨?_, ?_, ?_⟩
  · intro line htrim hne hhash hk hnl
    rw [parseGradleProperties, splitOn_eq_single_of_not_mem hnl, List.foldl_cons,
      List.foldl_nil, parseLine_no_sep [] line htrim hne hhash hk]
    rfl
  · intro l1 l2 ht1 hn1 hh1 hk1 hnl1 ht2 hn2 hh2 hk2 hnl2
    have hsplit : (l1 ++ '\n' :: l2).splitOn '\n' = [l1, l2] := by
      have hpred : ∀ x ∈ l1, ¬(x == '\n') = true := by
        intro x hx hbeq
        rw [beq_iff_eq] at hbeq
        exact hnl1 (hbeq ▸ hx)
      rw [List.splitOn]
      rw [List.splitOnP_first _ _ hpred '\n' rfl l2]
      rw [show l2.splitOnP (· == '\n') = l2.splitOn '\n' from rfl]
      rw [splitOn_eq_single_of_not_mem hnl2]
    rw [parseGradleProperties, hsplit, List.foldl_cons, List.foldl_cons, List.foldl_nil]
    rw [parseLine_no_sep [] l1 ht1 hn1 hh1 hk1]
    rw [parseLine_no_sep _ l2 ht2 hn2 hh2 hk2]
    rfl
  · intro content ⟨v, hv⟩
    rcases foldl_parseLine_key_origin _ [] [] v hv with ⟨v', hv'⟩ | ⟨raw, hraw, hne, hhash, hkey⟩
    · exact absurd hv' (List.not_mem_nil _)
    · exact ⟨raw, hraw, hne, hhash, empty_key_cases _ hne hkey.symm⟩

/-- Closed witness for amended C10: a no-equals line is stored under the empty key,
and a second such line overwrites the first. -/
theorem gradle_no_sep_line_behavior_witness :
    parseGradleProperties ("flag".data ++ '\n' :: "other".data) = [(([] : List Char), "other".data)] :=
  gradle_no_sep_line_behavior.2.1 "flag".data "other".data (by decide) (by decide) (by decide)
    (by decide) (by decide) (by decide) (by decide) (by decide) (by decide) (by decide)

/-! ### Compiler invocation arguments (HermesBundler.ts lines 29-43) -/

/-- Node path.join for the joins performed here: the directory followed by a
separator and a plain file name (no normalization is ever triggered by these
inputs). -/
def pathJoin (a b : String) : String := a ++ "/" ++ b

/-- Source lines 32, 37, 39-42: the argument list passed to the compiler
executable; the push of the optimization flag is modelled as an append. -/
def hermesCompilerArgs (tempDir : String) (optimize : Bool) : List String :=
  let tempBundleFile := pathJoin tempDir "index.bundle"
  let tempHbcFile := pathJoin tempDir "index.hbc"
  let args := ["-emit-binary", "-out", tempHbcFile, tempBundleFile, "-output-source-map"]
  if optimize then args ++ ["-O"] else args

theorem pathJoin_ne_flag (tempDir name : String) (hlen : 2 < name.length) :
    pathJoin tempDir name ≠ "-O" := by
  intro h
  have hd := congrArg String.data h
  simp only [pathJoin, String.data_append] at hd
  have hlen' := congrArg List.length hd
  simp only [List.length_append, List.length_cons, List.length_nil] at hlen'
  have hn : name.data.length = name.length := rfl
  have h2 : ("-O" : String).data.length = 2 := rfl
  omega

/-- Claim C3: the compiler is invoked with exactly the argument sequence
-emit-binary, -out, hbc path, bundle path, -output-source-map, with the
optimization flag -O appended exactly once at the end iff optimize is true. -/
theorem compiler_invocation_args (tempDir : String) (optimize : Bool) :
    hermesCompilerArgs tempDir optimize =
      ["-emit-binary", "-out", pathJoin tempDir "index.hbc", pathJoin tempDir "index.bundle",
        "-output-source-map"] ++ (if optimize then ["-O"] else []) ∧
    (hermesCompilerArgs tempDir optimize).count "-O" = (if optimize then 1 else 0) ∧
    (optimize = true → (hermesCompilerArgs tempDir optimize).getLast? = some "-O") := by
  have hhbc : pathJoin tempDir "index.hbc" ≠ "-O" := pathJoin_ne_flag tempDir "index.hbc" (by decide)
  have hbundle : pathJoin tempDir "index.bundle" ≠ "-O" :=
    pathJoin_ne_flag tempDir "index.bundle" (by decide)
  refine ⟨?_, ?_, ?_⟩
  · rw [hermesCompilerArgs]
    cases optimize <;> simp
  · rw [hermesCompilerArgs]
    cases optimize <;>
      simp [List.count_cons, List.count_nil, List.count_append, hhbc, hbundle]
  · intro hopt
    rw [hermesCompilerArgs, hopt]
    simp

/-- Closed witness for C3: with optimize on, a concrete invocation ends in a
single -O; the same directory with optimize off contains no -O. -/
theorem compiler_invocation_args_witness :
    (hermesCompilerArgs "/tmp/expo-bundler-42" true).count "-O" = (if true then 1 else 0) ∧
    (hermesCompilerArgs "/tmp/expo-bundler-42" true).getLast? = some "-O" ∧
    (hermesCompilerArgs "/tmp/expo-bundler-42" false).count "-O" = (if false then 1 else 0) :=
  ⟨(compiler_invocation_args "/tmp/expo-bundler-42" true).2.1,
    (compiler_invocation_args "/tmp/expo-bundler-42" true).2.2 rfl,
    (compiler_invocation_args "/tmp/expo-bundler-42" false).2.1⟩

/-! ### Source map composition (HermesBundler.ts lines 58-67) -/

/-- A parsed source map as its list of mapping segments: each segment maps a
generated position (a bytecode offset or bundle line) to a source name and a
line in that source.  JSON (de)serialization, a bijection on well-formed maps,
is abstracted away. -/
abbrev SourceMap := List (Nat × String × Nat)

/-- Generated-position lookup in a map: the source reference of the first segment
at the given position, if any. -/
def lookupGenerated (m : SourceMap) (pos : Nat) : Option (String × Nat) :=
  (m.find? (fun e => e.1 == pos)).map (fun e => e.2)

/-- Modelled from the spec: the composition step of composeSourceMaps from
metro-source-map, which is resolved from the host project (source lines 63,
158-169) and is not part of this repository.  Spec sections 3 and 4.3: every
segment of the later map keeps its generated position and has its source
reference substituted through the earlier map; segments with no corresponding
entry pass through unchanged. -/
def composeTwoMaps (first next : SourceMap) : SourceMap :=
  next.map (fun e =>
    match lookupGenerated first e.2.2 with
    | some orig => (e.1, orig)
    | none => e)

/-- Modelled from the spec: composeSourceMaps from metro-source-map over a list of
maps ordered from closest-to-original-source to closest-to-final-artifact. -/
def composeSourceMaps (maps : List SourceMap) : SourceMap :=
  match maps with
  | [] => []
  | m :: ms => ms.foldl composeTwoMaps m

/-- Source lines 58-67, createHermesSourcemapAsync: parse the bundler map (the
JSON text argument) and the compiler-emitted map (the contents of the map
file), and compose them in the order bundler map first, compiler map second. -/
def createHermesSourcemap (bundlerSourcemap hermesSourcemap : SourceMap) : SourceMap :=
  composeSourceMaps [bundlerSourcemap, hermesSourcemap]

/-- Claim C4: createHermesSourcemapAsync composes the two maps ordered as bundler
map first, compiler map second; a compiler segment mapping bytecode offset 10 to
bundle line 3 composed with a bundler segment mapping bundle line 3 to a.js line
1 yields bytecode offset 10 to a.js line 1, and in general a compiler segment
resolves through the bundler map. -/
theorem sourcemap_composition_order :
    createHermesSourcemap [(3, "a.js", 1)] [(10, "bundle", 3)] = [(10, "a.js", 1)] ∧
    (∀ bundlerMap hermesMap : SourceMap,
      createHermesSourcemap bundlerMap hermesMap = composeTwoMaps bundlerMap hermesMap) ∧
    (∀ (gen line origLine : Nat) (src file : String) (bundlerMap : SourceMap),
      lookupGenerated bundlerMap line = some (file, origLine) →
      createHermesSourcemap bundlerMap [(gen, src, line)] = [(gen, file, origLine)]) := by
  refine ⟨?_, ?_, ?_⟩
  · rfl
  · intro bundlerMap hermesMap
    rfl
  · intro gen line origLine src file bundlerMap hlook
    show composeTwoMaps bundlerMap [(gen, src, line)] = [(gen, file, origLine)]
    rw [composeTwoMaps, List.map_cons, List.map_nil]
    rw [show ((gen, src, line) : Nat × String × Nat).2.2 = line from rfl, hlook]

/-- Closed witness for C4: a two-segment compiler map resolves each segment
through the bundler map. -/
theorem sourcemap_composition_order_witness :
    createHermesSourcemap [(3, "a.js", 1)] [(10, "bundle", 3)] = [(10, "a.js", 1)] :=
  sourcemap_composition_order.2.2 10 3 1 "bundle" "a.js" [(3, "a.js", 1)] rfl

/-! ### Build lifecycle (HermesBundler.ts lines 23-56)

The async control flow of buildHermesBundleAsync is embedded as a pure function
over an environment recording the outcome of each external operation (compiler
spawn, artifact read / source-map composition, workspace removal) and a state
tracking the temporary workspace.  The try/finally at lines 31-55 follows the
JS semantics: the finally block always runs, and a rejection inside the finally
block replaces the outcome of the try block. -/

/-- Errors a build can surface. -/
inductive BuildError
  /-- Compiler spawn failure or non-zero exit (line 43). -/
  | spawnError
  /-- Artifact read or source-map composition failure (lines 45-48). -/
  | composeError
  /-- Rejection of fs.remove in the finally block (line 54). -/
  | removeError
deriving DecidableEq, Repr

/-- Source lines 19-22, HermesBundleOutput. -/
structure HermesBundleOutput where
  hbc : List Byte
  sourcemap : SourceMap
deriving DecidableEq, Repr

/-- Outcomes of the external operations a build performs. -/
structure BuildEnv where
  /-- The compiler process spawns and exits with code 0. -/
  spawnOk : Bool
  /-- Reading the artifacts and composing the source maps succeeds. -/
  composeOk : Bool
  /-- fs.remove of the workspace succeeds. -/
  removeOk : Bool
  /-- Bytecode bytes the compiler writes to index.hbc. -/
  compiledHbc : List Byte
  /-- Source map the compiler writes to index.hbc.map. -/
  compilerMap : SourceMap

/-- The temporary workspace directory of one build: whether it exists and which
files it holds. -/
structure WorkspaceState where
  tempDirExists : Bool
  tempFiles : List String
deriving DecidableEq, Repr

/-- Source lines 23-56, buildHermesBundleAsync, after fs.ensureDir has created the
workspace: stage the bundle and its map (lines 34-35), spawn the compiler
(line 43), read the bytecode and compose the maps (lines 45-48), and in the
finally block remove the workspace (line 54).  The returned pair is the
settled outcome of the returned promise and the final workspace state. -/
def buildHermesBundle (env : BuildEnv) (map : SourceMap) (optimize : Bool) :
    Except BuildError HermesBundleOutput × WorkspaceState :=
  let s0 : WorkspaceState := { tempDirExists := true, tempFiles := [] }
  let s1 : WorkspaceState :=
    { s0 with tempFiles := s0.tempFiles ++ ["index.bundle", "index.bundle.map"] }
  let body : Except BuildError HermesBundleOutput × WorkspaceState :=
    if env.spawnOk then
      let s2 : WorkspaceState :=
        { s1 with tempFiles := s1.tempFiles ++ ["index.hbc", "index.hbc.map"] }
      if env.composeOk then
        (Except.ok { hbc := env.compiledHbc,
                     sourcemap := createHermesSourcemap map env.compilerMap }, s2)
      else
        (Except.error BuildError.composeError, s2)
    else
      (Except.error BuildError.spawnError, s1)
  if env.removeOk then
    (body.1, { tempDirExists := false, tempFiles := [] })
  else
    (Except.error BuildError.removeError, body.2)

/-- Claim C1: whenever the filesystem allows the removal, the workspace directory
is recursively removed before buildHermesBundleAsync returns, on every exit
path: success, compiler spawn failure or non-zero exit, and source-map
composition failure (the environment quantifies over all of them). -/
theorem workspace_always_removed (env : BuildEnv) (map : SourceMap) (optimize : Bool)
    (hremove : env.removeOk = true) :
    (buildHermesBundle env map optimize).2 =
      { tempDirExists := false, tempFiles := [] } := by
  rw [buildHermesBundle]
  simp only [hremove, if_true]

/-- Closed witness for C1: on a spawn-failure path with working removal, the
workspace is gone after the call. -/
theorem workspace_always_removed_witness :
    (buildHermesBundle ⟨false, true, true, [], []⟩ [] false).2 =
      { tempDirExists := false, tempFiles := [] } :=
  workspace_always_removed ⟨false, true, true, [], []⟩ [] false rfl

/-- Counterexample for claim C2: when the build body fails with a spawn error and
the workspace removal in the finally block also fails, the error propagated to
the caller is the removal error, not the earlier build error: the rejection in
the finally block replaces the body's rejection under JS semantics. -/
theorem removal_error_masks_build_error :
    (buildHermesBundle ⟨false, true, false, [], []⟩ [] false).1 =
      Except.error BuildError.removeError ∧
    BuildError.removeError ≠ BuildError.spawnError := by
  constructor
  · rfl
  · intro h
    cases h

/-- Amended claim C2: when the build body fails, the build error reaches the
caller only if the workspace removal succeeds; if the removal also fails, the
removal error replaces (masks) the earlier build error. -/
theorem build_error_propagation (env : BuildEnv) (map : SourceMap) (optimize : Bool)
    (hspawn : env.spawnOk = false) :
    (buildHermesBundle env map optimize).1 =
      (if env.removeOk then Except.error BuildError.spawnError
        else Except.error BuildError.removeError) := by
  rw [buildHermesBundle]
  simp only [hspawn, Bool.false_eq_true, if_false]
  cases hr : env.removeOk <;> simp

/-- Closed witness for amended C2: with a spawn failure and a working removal the
spawn error propagates. -/
theorem build_error_propagation_witness :
    (buildHermesBundle ⟨false, true, true, [], []⟩ [] false).1 =
      (if true then Except.error BuildError.spawnError
        else Except.error BuildError.removeError) :=
  build_error_propagation ⟨false, true, true, [], []⟩ [] false rfl

/-! ### Workspace identity (HermesBundler.ts line 29)

The temporary directory is path.join(os.tmpdir(), a template string rendering
process.pid in decimal).  To state claims about concurrent invocations, an
invocation is a process id together with an invocation counter distinguishing
concurrent calls within one process; the code derives the directory name from
the process id alone. -/

/-- One call to buildHermesBundleAsync. -/
structure BuildInvocation where
  /-- process.pid of the calling process. -/
  pid : Nat
  /-- Distinguishes concurrent invocations inside one process; not used by the
  code. -/
  invocationId : Nat
deriving DecidableEq, Repr

/-- Source line 29: the workspace identity of an invocation, the template string
rendering process.pid in decimal joined under the OS temporary directory. -/
def workspaceTempDir (tmpdir : String) (inv : BuildInvocation) : String :=
  pathJoin tmpdir ("expo-bundler-" ++ Nat.repr inv.pid)

theorem toDigitsCore_append (fuel : Nat) : ∀ (n : Nat) (ds : List Char),
    Nat.toDigitsCore 10 fuel n ds = Nat.toDigitsCore 10 fuel n [] ++ ds := by
  induction fuel with
  | zero =>
    intro n ds
    simp [Nat.toDigitsCore]
  | succ f ih =>
    intro n ds
    simp only [Nat.toDigitsCore]
    by_cases h : n / 10 = 0
    · simp [h]
    · rw [if_neg h, if_neg h]
      rw [ih (n / 10) [Nat.digitChar (n % 10)], ih (n / 10) (Nat.digitChar (n % 10) :: ds),
        List.append_assoc]
      rfl

theorem toDigitsCore_fuel_irrelevant : ∀ (n f1 f2 : Nat), n < f1 → n < f2 →
    Nat.toDigitsCore 10 f1 n [] = Nat.toDigitsCore 10 f2 n [] := by
  intro n
  induction n using Nat.strong_induction_on with
  | _ n ih =>
    intro f1 f2 h1 h2
    cases f1 with
    | zero => omega
    | succ a =>
      cases f2 with
      | zero => omega
      | succ b =>
        simp only [Nat.toDigitsCore]
        by_cases h : n / 10 = 0
        · rw [if_pos h, if_pos h]
        · rw [if_neg h, if_neg h]
          have hdiv : n / 10 < n := Nat.div_lt_self (by omega) (by omega)
          rw [toDigitsCore_append a (n / 10), toDigitsCore_append b (n / 10)]
          rw [ih (n / 10) hdiv a b (by omega) (by omega)]

/-- Inverse of Nat.digitChar on decimal digits. -/
def decDigitValue (c : Char) : Nat :=
  if c = '0' then 0 else if c = '1' then 1 else if c = '2' then 2 else if c = '3' then 3
  else if c = '4' then 4 else if c = '5' then 5 else if c = '6' then 6 else if c = '7' then 7
  else if c = '8' then 8 else 9

/-- Decimal decoding of a digit string. -/
def decodeDecDigits (l : List Char) : Nat :=
  l.foldl (fun acc c => 10 * acc + decDigitValue c) 0

theorem decDigitValue_digitChar (k : Nat) (hk : k < 10) :
    decDigitValue (Nat.digitChar k) = k := by
  have : ∀ x : Fin 10, decDigitValue (Nat.digitChar x.val) = x.val := by decide
  exact this ⟨k, hk⟩

theorem decodeDecDigits_toDigits : ∀ n : Nat, decodeDecDigits (Nat.toDigits 10 n) = n := by
  intro n
  induction n using Nat.strong_induction_on with
  | _ n ih =>
    rw [Nat.toDigits]
    simp only [Nat.toDigitsCore]
    by_cases h : n / 10 = 0
    · rw [if_pos h]
      rw [decodeDecDigits, List.foldl_cons, List.foldl_nil]
      rw [decDigitValue_digitChar (n % 10) (by omega)]
      omega
    · rw [if_neg h]
      have hdiv : n / 10 < n := Nat.div_lt_self (by omega) (by omega)
      rw [toDigitsCore_append n (n / 10)]
      rw [toDigitsCore_fuel_irrelevant (n / 10) n (n / 10 + 1) hdiv (Nat.lt_succ_self _)]
      rw [show Nat.toDigitsCore 10 (n / 10 + 1) (n / 10) [] = Nat.toDigits 10 (n / 10) from rfl]
      rw [decodeDecDigits, List.foldl_append]
      rw [show List.foldl (fun acc c => 10 * acc + decDigitValue c) 0 (Nat.toDigits 10 (n / 10)) =
        decodeDecDigits (Nat.toDigits 10 (n / 10)) from rfl]
      rw [ih (n / 10) hdiv]
      rw [List.foldl_cons, List.foldl_nil]
      rw [decDigitValue_digitChar (n % 10) (by omega)]
      omega

theorem natRepr_injective (m n : Nat) (h : Nat.repr m = Nat.repr n) : m = n := by
  have hd : Nat.toDigits 10 m = Nat.toDigits 10 n := by
    have := congrArg String.data h
    simpa [Nat.repr, List.asString] using this
  rw [← decodeDecDigits_toDigits m, ← decodeDecDigits_toDigits n, hd]

/-- Counterexample for claim C9: two distinct concurrent invocations in the same
process (same pid, different invocation counters) acquire the same workspace
identity, because the directory name depends only on process.pid. -/
theorem workspace_identity_collision :
    (⟨42, 0⟩ : BuildInvocation) ≠ (⟨42, 1⟩ : BuildInvocation) ∧
    workspaceTempDir "/tmp" ⟨42, 0⟩ = workspaceTempDir "/tmp" ⟨42, 1⟩ := by
  constructor
  · intro h
    cases h
  · rfl

/-- Amended claim C9: workspace identities are distinct only across processes:
invocations with different process ids always get different directories, while
concurrent invocations within one process share the same directory. -/
theorem workspace_identity_distinct_across_processes (tmpdir : String)
    (i1 i2 : BuildInvocation) (hpid : i1.pid ≠ i2.pid) :
    workspaceTempDir tmpdir i1 ≠ workspaceTempDir tmpdir i2 := by
  intro h
  apply hpid
  have hd := congrArg String.data h
  simp only [workspaceTempDir, pathJoin, String.data_append] at hd
  have hd1 := List.append_cancel_left hd
  have hd2 := List.append_cancel_left hd1
  exact natRepr_injective i1.pid i2.pid (by
    have : (Nat.repr i1.pid).data = (Nat.repr i2.pid).data := hd2
    cases hr1 : Nat.repr i1.pid
    cases hr2 : Nat.repr i2.pid
    rw [hr1, hr2] at this
    exact congrArg String.mk this)

/-- Closed witness for amended C9: invocations in processes 42 and 43 get
different directories. -/
theorem workspace_identity_distinct_across_processes_witness :
    workspaceTempDir "/tmp" ⟨42, 0⟩ ≠ workspaceTempDir "/tmp" ⟨43, 0⟩ :=
  workspace_identity_distinct_across_processes "/tmp" ⟨42, 0⟩ ⟨43, 0⟩ (by decide)

end HermesBundler
